import Mathlib

/-!
Verification of the chatroom Change/Topic core (src/chatroom/change.py and
src/chatroom/topic.py) against its natural-language specification.

The Python code is shallowly embedded: each Change class's `apply` and
`inverse` become Lean functions over an inductive value type `TVal`.
Python exceptions become an explicit error type `PyErr`; `apply` returns,
besides the `Except` result, the post-call content of the caller's argument,
so that in-place mutation of the argument (which some dict operations
perform) is observable in the model.
-/

/-- The Python exceptions the embedded code can raise.
`invalidChange` stands for `InvalidChangeError`, `assertionError` for a failed
`assert` statement, `typeError` for a `TypeError` raised by a call with a
wrong signature or an operand of the wrong runtime type, `listenerError` for
an arbitrary exception escaping a listener callback. -/
inductive PyErr where
  | invalidChange
  | assertionError
  | typeError
  | listenerError
deriving DecidableEq, Repr

/-- Topic values, covering the kinds the claims range over.
`pynone` is Python `None` (the value of generic and event topics and the
default `old_value` of `SetChange`); float topic values are IEEE-754 binary64
numbers, each finite one of which denotes an exact rational, so `Rat` carries
them — but Python float *arithmetic* rounds every result to 53 bits, which no
exact carrier reproduces: the `fltAdd` branch of `applyChg` below uses the
exact sum as a stand-in, and no theorem of this file depends on that sum's
value (the round-trip theorem excludes float Add, and the mutation and
rollback theorems are insensitive to it); set-as-list values are lists of
items (items taken as integers); dict values are association lists of string
keys to integer values in Python dict insertion order. -/
inductive TVal where
  | pynone
  | int (n : Int)
  | flt (q : Rat)
  | str (s : List Char)
  | list (l : List Int)
  | dict (d : List (String × Int))
deriving DecidableEq, Repr

/-- `d[k]` lookup for the association-list model of a Python dict:
the first entry with key `k` (a real Python dict has at most one). -/
def dictLookup (k : String) : List (String × Int) → Option Int
  | [] => Option.none
  | p :: rest => if p.1 = k then Option.some p.2 else dictLookup k rest

/-- `old_dict.pop(k)`'s effect on the dict: drop the first entry with key `k`. -/
def dictErase (k : String) : List (String × Int) → List (String × Int)
  | [] => []
  | p :: rest => if p.1 = k then rest else p :: dictErase k rest

/-- `old_dict[k] = v` for a key already present: the entry keeps its position
in Python dict order, only the value is replaced. -/
def dictSet (k : String) (v : Int) (d : List (String × Int)) : List (String × Int) :=
  d.map (fun p => if p.1 = k then (k, v) else p)

/-- Python `==` on two dicts: equal key sets and equal value at every key,
regardless of insertion order.  Checking every key occurring in either
association list is exactly that comparison. -/
def dictEqB (d1 d2 : List (String × Int)) : Bool :=
  (d1.map Prod.fst ++ d2.map Prod.fst).all
    (fun k => decide (dictLookup k d1 = dictLookup k d2))

/-- Python `==` on topic values: structural equality, except that dicts
compare order-insensitively and an int equals a float of the same numeric
value (`1 == 1.0` is True in Python); lists compare order-sensitively, as in
Python. -/
def pyEq (a b : TVal) : Bool :=
  match a, b with
  | .dict d1, .dict d2 => dictEqB d1 d2
  | .int n, .flt q => decide ((n : Rat) = q)
  | .flt q, .int n => decide (q = (n : Rat))
  | a, b => decide (a = b)

/-- The change catalog of change.py, one constructor per concrete Change
class whose `apply` does real work.  Fields mirror the Python attributes
that `apply`/`inverse` read or write:
* `setw value old` is `SetChange(topic_name, value, old_value)`; `old = .pynone`
  models the default `old_value=None` (no expected-prior-value);
* `intAdd` / `fltAdd` are `IntChangeTypes.AddChange` / `FloatChangeTypes.AddChange`;
* `setAppend` / `setRemove` are `SetChangeTypes.AppendChange` / `RemoveChange`;
* `dictAdd` / `dictRemove` / `dictChangeValue` are the `DictChangeTypes`
  classes; `dictRemove`'s `captured` is its `value` attribute (None until
  `apply` captures the removed value); `dictChangeValue`'s `old` is its
  `old_value` attribute;
* `emit` / `reversedEmit` are the `EventChangeTypes` classes (their `args`
  and `forward_info` payloads never affect `apply`, so they are not tracked
  at value level). -/
inductive Chg where
  | setw (value old : TVal)
  | intAdd (d : Int)
  | fltAdd (d : Rat)
  | setAppend (item : Int)
  | setRemove (item : Int)
  | dictAdd (k : String) (v : Int)
  | dictRemove (k : String) (captured : Option Int)
  | dictChangeValue (k : String) (v : Int) (old : Option Int)
  | emit
  | reversedEmit
deriving DecidableEq, Repr

/-- `change.apply(old_value)` from change.py.  The result's first component is
what the caller's argument holds after the call (the dict operations mutate
the argument in place and return it; every other operation leaves the
argument untouched); the second is the returned value, or the raised error,
paired with the post-call state of the change object itself (`SetChange.apply`
overwrites `self.old_value`, `DictChangeTypes.RemoveChange.apply` captures
`self.value`, `DictChangeTypes.ChangeValueChange.apply` captures
`self.old_value`).  A change reaching a value of a kind it is not registered
for is a dynamic type error. -/
def applyChg : Chg → TVal → TVal × Except PyErr (Chg × TVal)
  | .setw value old, v =>
      -- SetChange.apply deepcopies old_value first, so the caller's copy is
      -- never touched; a non-None self.old_value that is not Python-== to the
      -- actual old value fails the `assert old_value == self.old_value`
      -- statement (`pyEq` is Python ==: order-insensitive on dicts,
      -- int/float cross-equal).
      if old ≠ .pynone ∧ pyEq v old = false then (v, .error .assertionError)
      else (v, .ok (.setw value v, value))
  | .intAdd d, .int n => (.int n, .ok (.intAdd d, .int (n + d)))
  | .fltAdd d, .flt q =>
      -- Python computes the IEEE-754 rounded sum here; the exact sum stands
      -- in (see the `TVal` comment) and no theorem relies on its value.
      (.flt q, .ok (.fltAdd d, .flt (q + d)))
  | .setAppend i, .list l =>
      if i ∈ l then (.list l, .error .invalidChange)
      else (.list l, .ok (.setAppend i, .list (l ++ [i])))
  | .setRemove i, .list l =>
      -- `old_value[:]` copies before `.remove`, which drops the first occurrence.
      if i ∈ l then (.list l, .ok (.setRemove i, .list (l.erase i)))
      else (.list l, .error .invalidChange)
  | .dictAdd k v, .dict d =>
      if (dictLookup k d).isSome then (.dict d, .error .invalidChange)
      else (.dict (d ++ [(k, v)]), .ok (.dictAdd k v, .dict (d ++ [(k, v)])))
  | .dictRemove k _, .dict d =>
      match dictLookup k d with
      | Option.none => (.dict d, .error .invalidChange)
      | Option.some cur =>
          (.dict (dictErase k d), .ok (.dictRemove k (Option.some cur), .dict (dictErase k d)))
  | .dictChangeValue k v old, .dict d =>
      match dictLookup k d with
      | Option.none => (.dict d, .error .invalidChange)
      | Option.some cur =>
          -- when `old ≠ some cur` the source regenerates `self.id`; identity is
          -- modelled separately (see `CVChange.cvApply` below), not at value level.
          (.dict (dictSet k v d),
           .ok (.dictChangeValue k v (Option.some cur), .dict (dictSet k v d)))
  | .emit, .pynone => (.pynone, .ok (.emit, .pynone))
  | .reversedEmit, .pynone => (.pynone, .ok (.reversedEmit, .pynone))
  | c, v => (v, .error .typeError)

/-- `change.inverse()` from change.py.
`FloatChangeTypes.AddChange.inverse` constructs `IntChangeTypes.AddChange
(topic_name, -value)`, whose `apply` is the very same `old_value + self.value`;
only the serialized `topic_type` tag differs, which this value-level model
does not track, so the inverse of `fltAdd d` is written `fltAdd (-d)`.
`DictChangeTypes.RemoveChange.inverse` passes `self.value`, which is `None`
before `apply` has captured anything; per the spec, `inverse` is only defined
after `apply`, so the `Option.none` branch (default value 0) is never
exercised by the theorems. -/
def inverseChg : Chg → Chg
  | .setw value old => .setw old value
  | .intAdd d => .intAdd (-d)
  | .fltAdd d => .fltAdd (-d)
  | .setAppend i => .setRemove i
  | .setRemove i => .setAppend i
  | .dictAdd k _ => .dictRemove k Option.none
  | .dictRemove k cap => .dictAdd k (cap.getD 0)
  | .dictChangeValue k v old => .dictChangeValue k (old.getD 0) (Option.some v)
  | .emit => .reversedEmit
  | .reversedEmit => .emit

/-- Equality of topic values up to reordering of set-as-list elements:
like `pyEq`, but list values compare as multisets.  This is the equality
under which the round-trip law holds for the set-as-list Remove operation. -/
def pyEqPerm (a b : TVal) : Prop :=
  match a, b with
  | .list l1, .list l2 => l1.Perm l2
  | a, b => pyEq a b = true

/- Lemmas about the association-list dict model. -/

theorem dictLookup_append (k : String) (l1 l2 : List (String × Int)) :
    dictLookup k (l1 ++ l2) =
      match dictLookup k l1 with
      | Option.some v => Option.some v
      | Option.none => dictLookup k l2 := by
  induction l1 with
  | nil => simp [dictLookup]
  | cons p rest ih =>
      by_cases h : p.1 = k <;> simp [dictLookup, h, ih]

theorem dictErase_append_of_lookup_none (k : String) (v : Int)
    (d : List (String × Int)) (h : dictLookup k d = Option.none) :
    dictErase k (d ++ [(k, v)]) = d := by
  induction d with
  | nil => simp [dictErase]
  | cons p rest ih =>
      simp only [dictLookup] at h
      by_cases hp : p.1 = k
      · simp [hp] at h
      · simp only [hp, if_false] at h
        simp [dictErase, hp, ih h]

theorem dictLookup_erase_self (k : String) (d : List (String × Int))
    (h : (d.map Prod.fst).Nodup) : dictLookup k (dictErase k d) = Option.none := by
  induction d with
  | nil => simp [dictErase, dictLookup]
  | cons p rest ih =>
      simp only [List.map_cons, List.nodup_cons] at h
      by_cases hp : p.1 = k
      · simp only [dictErase, hp, if_true]
        subst hp
        cases hl : dictLookup p.1 rest with
        | none => rfl
        | some w =>
            exfalso
            apply h.1
            clear ih h
            induction rest with
            | nil => simp [dictLookup] at hl
            | cons q rest2 ih2 =>
                simp only [dictLookup] at hl
                by_cases hq : q.1 = p.1
                · simp [hq]
                · simp only [hq, if_false] at hl
                  simp [ih2 hl]
      · simp [dictErase, hp, dictLookup, ih h.2]

theorem dictLookup_erase_ne (k k2 : String) (d : List (String × Int)) (h : k2 ≠ k) :
    dictLookup k2 (dictErase k d) = dictLookup k2 d := by
  induction d with
  | nil => simp [dictErase]
  | cons p rest ih =>
      have hk : ¬ (k = k2) := fun hh => h hh.symm
      by_cases hp : p.1 = k
      · have hp2 : p.1 ≠ k2 := by rw [hp]; exact fun hh => h hh.symm
        simp [dictErase, hp, dictLookup, hp2, hk]
      · by_cases hp2 : p.1 = k2 <;> simp [dictErase, hp, dictLookup, hp2, ih, h]

theorem dictSet_cons (k : String) (v : Int) (p : String × Int)
    (rest : List (String × Int)) :
    dictSet k v (p :: rest) = (if p.1 = k then (k, v) else p) :: dictSet k v rest := by
  simp [dictSet]

theorem dictLookup_set_self (k : String) (v cur : Int) (d : List (String × Int))
    (h : dictLookup k d = Option.some cur) :
    dictLookup k (dictSet k v d) = Option.some v := by
  induction d with
  | nil => simp [dictLookup] at h
  | cons p rest ih =>
      simp only [dictLookup] at h
      rw [dictSet_cons]
      by_cases hp : p.1 = k
      · simp [dictLookup, hp]
      · simp only [hp, if_false] at h
        simp [dictLookup, hp, ih h]

theorem dictLookup_set_ne (k k2 : String) (v : Int) (d : List (String × Int))
    (h : k2 ≠ k) : dictLookup k2 (dictSet k v d) = dictLookup k2 d := by
  induction d with
  | nil => simp [dictSet, dictLookup]
  | cons p rest ih =>
      rw [dictSet_cons]
      by_cases hp : p.1 = k
      · have hk : ¬ (k = k2) := fun hh => h hh.symm
        simp [dictLookup, hp, hk, ih]
      · by_cases hp2 : p.1 = k2 <;> simp [dictLookup, hp, hp2, ih, h]

theorem dictEqB_of_forall (d1 d2 : List (String × Int))
    (h : ∀ k, dictLookup k d1 = dictLookup k d2) : dictEqB d1 d2 = true := by
  simp only [dictEqB, List.all_eq_true]
  intro k _
  simp [h k]

theorem pyEq_refl (a : TVal) : pyEq a a = true := by
  cases a with
  | pynone => rfl
  | int n => exact decide_eq_true (Eq.refl (TVal.int n))
  | flt q => exact decide_eq_true (Eq.refl (TVal.flt q))
  | str s => exact decide_eq_true (Eq.refl (TVal.str s))
  | list l => exact decide_eq_true (Eq.refl (TVal.list l))
  | dict d => exact dictEqB_of_forall _ _ (fun _ => rfl)

theorem pyEqPerm_refl (a : TVal) : pyEqPerm a a := by
  cases a <;> simp only [pyEqPerm] <;> first
    | exact List.Perm.refl _
    | exact pyEq_refl _

theorem pyEqPerm_of_pyEq (a b : TVal) (h : pyEq a b = true) : pyEqPerm a b := by
  cases a <;> cases b <;> try exact h
  rename_i l1 l2
  have h2 : TVal.list l1 = TVal.list l2 := of_decide_eq_true h
  cases h2
  exact List.Perm.refl _

/-- C1 (counterexample to the claim as stated): for the set-as-list value
`[1, 2]` and the valid change `Remove(1)`, applying the change yields `[2]`
and applying its inverse `Append(1)` then yields `[2, 1]`, which is not equal
to the original `[1, 2]` (Python list equality is order-sensitive), so the
round trip does not yield `v` again. -/
theorem c1_claim_counterexample :
    (applyChg (Chg.setRemove 1) (TVal.list [1, 2])).2
        = Except.ok (Chg.setRemove 1, TVal.list [2]) ∧
    inverseChg (Chg.setRemove 1) = Chg.setAppend 1 ∧
    (applyChg (Chg.setAppend 1) (TVal.list [2])).2
        = Except.ok (Chg.setAppend 1, TVal.list [2, 1]) ∧
    pyEq (TVal.list [2, 1]) (TVal.list [1, 2]) = false ∧
    TVal.list [2, 1] ≠ TVal.list [1, 2] := by
  refine ⟨rfl, rfl, rfl, rfl, ?_⟩
  decide

/-- C1 (amended): the round-trip law, as it actually holds in change.py.
For every change `c` — float Add excluded — whose `apply` on `v` succeeds
(returning the mutated change `c1` and the new value `v1`), applying
`c1.inverse()` to `v1` succeeds and yields `v` again, under Python equality
(`pyEq`: dicts compare order-insensitively), for whole-value Set, int Add,
set-as-list Append, all dict operations and event Emit/ReversedEmit; for
set-as-list Remove the result is equal to `v` only up to reordering (the
inverse Append re-adds the removed item at the end) and `v` must not contain
the removed item twice (otherwise the inverse Append raises InvalidChange).
Float Add is excluded because Python float addition is IEEE-754 binary64 and
rounds — `(0.1 + 0.2) - 0.2 ≠ 0.1` in Python — so the exact round trip fails
in the source language itself and exact arithmetic cannot represent it.
Dict values range over association lists with distinct keys, as every Python
dict has. -/
theorem c1_round_trip_amended (c : Chg) (v : TVal) (c1 : Chg) (v1 : TVal)
    (happly : (applyChg c v).2 = Except.ok (c1, v1))
    (hflt : ∀ q, c ≠ Chg.fltAdd q)
    (hdup : ∀ i l, c = Chg.setRemove i → v = TVal.list l → l.count i ≤ 1)
    (hkeys : ∀ d, v = TVal.dict d → (d.map Prod.fst).Nodup) :
    ∃ c2 v2, (applyChg (inverseChg c1) v1).2 = Except.ok (c2, v2) ∧
      pyEqPerm v2 v ∧ ((∀ i, c ≠ Chg.setRemove i) → pyEq v2 v = true) := by
  cases c with
  | setw value old =>
      simp only [applyChg] at happly
      split at happly
      · simp at happly
      · simp at happly
        obtain ⟨rfl, rfl⟩ := happly
        refine ⟨Chg.setw v value, v, ?_, pyEqPerm_refl v, fun _ => pyEq_refl v⟩
        simp [applyChg, inverseChg, pyEq_refl]
  | intAdd d =>
      cases v <;> simp [applyChg] at happly
      obtain ⟨rfl, rfl⟩ := happly
      rename_i n
      refine ⟨Chg.intAdd (-d), TVal.int n, ?_, pyEqPerm_refl _, fun _ => pyEq_refl _⟩
      have hn : n + d + -d = n := by ring
      simp [applyChg, inverseChg, hn]
  | fltAdd d => exact absurd rfl (hflt d)
  | setAppend i =>
      cases v
      case list l =>
        simp only [applyChg] at happly
        split at happly
        · simp at happly
        · rename_i hmem
          simp at happly
          obtain ⟨rfl, rfl⟩ := happly
          have hmem2 : i ∈ l ++ [i] := by simp
          have he : (l ++ [i]).erase i = l := by
            rw [List.erase_append_right _ hmem]; simp
          refine ⟨Chg.setRemove i, TVal.list l, ?_, pyEqPerm_refl _,
                  fun _ => pyEq_refl _⟩
          simp [inverseChg, applyChg, hmem2, he]
      all_goals simp [applyChg] at happly
  | setRemove i =>
      cases v
      case list l =>
        simp only [applyChg] at happly
        split at happly
        · rename_i hmem
          simp at happly
          obtain ⟨rfl, rfl⟩ := happly
          have hcount1 : l.count i = 1 := by
            have h1 := hdup i l rfl rfl
            have h2 := List.count_pos_iff.mpr hmem
            omega
          have hzero : (l.erase i).count i = 0 := by
            rw [List.count_erase_self, hcount1]
          have hnotmem : i ∉ l.erase i := List.count_eq_zero.mp hzero
          refine ⟨Chg.setAppend i, TVal.list (l.erase i ++ [i]), ?_, ?_,
                  fun hno => absurd rfl (hno i)⟩
          · simp [inverseChg, applyChg, hnotmem]
          · simp only [pyEqPerm]
            exact (List.perm_append_singleton i (l.erase i)).trans
              (List.perm_cons_erase hmem).symm
        · simp at happly
      all_goals simp [applyChg] at happly
  | dictAdd k v0 =>
      cases v
      case dict d =>
        simp only [applyChg] at happly
        split at happly
        · simp at happly
        · rename_i hnone
          simp at happly
          obtain ⟨rfl, rfl⟩ := happly
          have hlk : dictLookup k d = Option.none := by
            cases h : dictLookup k d
            · rfl
            · rw [h] at hnone; simp at hnone
          have h1 : dictLookup k (d ++ [(k, v0)]) = Option.some v0 := by
            rw [dictLookup_append, hlk]; simp [dictLookup]
          have h2 : dictErase k (d ++ [(k, v0)]) = d :=
            dictErase_append_of_lookup_none k v0 d hlk
          refine ⟨Chg.dictRemove k (Option.some v0), TVal.dict d, ?_,
                  pyEqPerm_refl _, fun _ => pyEq_refl _⟩
          simp [inverseChg, applyChg, h1, h2]
      all_goals simp [applyChg] at happly
  | dictRemove k cap =>
      cases v
      case dict d =>
        have hnd : (d.map Prod.fst).Nodup := hkeys d rfl
        simp only [applyChg] at happly
        split at happly
        · simp at happly
        · rename_i cur hcur
          simp at happly
          obtain ⟨rfl, rfl⟩ := happly
          have he : dictLookup k (dictErase k d) = Option.none :=
            dictLookup_erase_self k d hnd
          have hq : pyEq (TVal.dict (dictErase k d ++ [(k, cur)]))
              (TVal.dict d) = true := by
            simp only [pyEq]
            apply dictEqB_of_forall
            intro k2
            by_cases hk : k2 = k
            · subst hk
              rw [dictLookup_append, he, hcur]
              simp [dictLookup]
            · rw [dictLookup_append, dictLookup_erase_ne k k2 d hk]
              cases hl : dictLookup k2 d with
              | some w => simp
              | none =>
                  have hk2 : ¬ (k = k2) := fun hh => hk hh.symm
                  simp [dictLookup, hk2]
          refine ⟨Chg.dictAdd k cur, TVal.dict (dictErase k d ++ [(k, cur)]),
                  ?_, pyEqPerm_of_pyEq _ _ hq, fun _ => hq⟩
          simp [inverseChg, applyChg, he]
      all_goals simp [applyChg] at happly
  | dictChangeValue k v0 old =>
      cases v
      case dict d =>
        simp only [applyChg] at happly
        split at happly
        · simp at happly
        · rename_i cur hcur
          simp at happly
          obtain ⟨rfl, rfl⟩ := happly
          have h1 : dictLookup k (dictSet k v0 d) = Option.some v0 :=
            dictLookup_set_self k v0 cur d hcur
          have hq : pyEq (TVal.dict (dictSet k cur (dictSet k v0 d)))
              (TVal.dict d) = true := by
            simp only [pyEq]
            apply dictEqB_of_forall
            intro k2
            by_cases hk : k2 = k
            · subst hk
              rw [dictLookup_set_self k2 cur v0 (dictSet k2 v0 d) h1, hcur]
            · rw [dictLookup_set_ne k k2 cur _ hk, dictLookup_set_ne k k2 v0 d hk]
          refine ⟨Chg.dictChangeValue k cur (Option.some v0),
                  TVal.dict (dictSet k cur (dictSet k v0 d)), ?_,
                  pyEqPerm_of_pyEq _ _ hq, fun _ => hq⟩
          simp [inverseChg, applyChg, h1]
      all_goals simp [applyChg] at happly
  | emit =>
      cases v <;> simp [applyChg] at happly
      obtain ⟨rfl, rfl⟩ := happly
      exact ⟨Chg.reversedEmit, TVal.pynone, by simp [applyChg, inverseChg],
             pyEqPerm_refl _, fun _ => pyEq_refl _⟩
  | reversedEmit =>
      cases v <;> simp [applyChg] at happly
      obtain ⟨rfl, rfl⟩ := happly
      exact ⟨Chg.emit, TVal.pynone, by simp [applyChg, inverseChg],
             pyEqPerm_refl _, fun _ => pyEq_refl _⟩

/-- Witness for the amended C1 round-trip theorem at the concrete input
`v = 1` (int topic), `c = Set(value=3)`: the round trip restores `1`. -/
theorem c1_round_trip_amended_witness :
    ∃ c2 v2, (applyChg (inverseChg (Chg.setw (TVal.int 3) (TVal.int 1)))
        (TVal.int 3)).2 = Except.ok (c2, v2) ∧ pyEqPerm v2 (TVal.int 1) ∧
      ((∀ i, Chg.setw (TVal.int 3) TVal.pynone ≠ Chg.setRemove i) →
        pyEq v2 (TVal.int 1) = true) :=
  c1_round_trip_amended (Chg.setw (TVal.int 3) TVal.pynone) (TVal.int 1)
    (Chg.setw (TVal.int 3) (TVal.int 1)) (TVal.int 3) rfl
    (fun q h => by simp at h)
    (fun i l h => by simp at h) (fun d h => by simp at h)

/-- The dict operations of the catalog (`DictChangeTypes.AddChange`,
`RemoveChange`, `ChangeValueChange`), whose `apply` mutates its argument
in place and returns it. -/
def Chg.isDictOp : Chg → Bool
  | .dictAdd _ _ => true
  | .dictRemove _ _ => true
  | .dictChangeValue _ _ _ => true
  | _ => false

/-- C7 (counterexample to the claim as stated): `DictChangeTypes.AddChange
("a", 1).apply` on the empty dict writes through the caller's reference:
after the call the caller's dict is `{"a": 1}`, not the empty dict it was
before the call, so `apply` does mutate the caller's old value in place. -/
theorem c7_claim_counterexample :
    (applyChg (Chg.dictAdd "a" 1) (TVal.dict [])).1 = TVal.dict [("a", 1)] ∧
    TVal.dict [("a", 1)] ≠ TVal.dict [] := by
  refine ⟨rfl, ?_⟩
  decide

/-- C7 (amended): `apply` leaves the caller's old value unchanged for every
non-dict change kind (Set deep-copies, int/float Add is pure, set-as-list
Append/Remove copy the list, events touch nothing), and for every change kind
whenever `apply` raises; the three dict operations, however, mutate the
caller's dict in place on success — the returned new value is the caller's
own (mutated) object.  (Topic protects its stored value by passing
`copy.deepcopy(self._value)` into `apply`.) -/
theorem c7_mutation_amended (c : Chg) (v : TVal) :
    (c.isDictOp = false → (applyChg c v).1 = v) ∧
    (∀ e, (applyChg c v).2 = Except.error e → (applyChg c v).1 = v) ∧
    (∀ c1 v1, (applyChg c v).2 = Except.ok (c1, v1) → c.isDictOp = true →
      (applyChg c v).1 = v1) := by
  cases c <;> cases v <;>
    refine ⟨fun hnd => ?_, fun e he => ?_, fun c1 v1 hok hd => ?_⟩ <;>
    first
      | (simp_all [applyChg, Chg.isDictOp]; done)
      | (simp only [applyChg]; split <;> rfl)
      | (simp only [applyChg] at hok ⊢; split at hok <;> simp_all)
      | (simp only [applyChg] at he ⊢; split at he <;> simp_all)

/-- Witness for the amended C7 theorem: int Add(1) applied to 0 leaves the
caller's argument equal to 0. -/
theorem c7_mutation_amended_witness :
    (applyChg (Chg.intAdd 1) (TVal.int 0)).1 = TVal.int 0 :=
  (c7_mutation_amended (Chg.intAdd 1) (TVal.int 0)).1 rfl

/-- A validator as stored in `Topic._validators`: a predicate over
`(old_value, new_value, change)` (topic.py). -/
def Validator : Type := TVal → TVal → Chg → Bool

/-- `type_validator(*ts)` from change.py: a validator that only inspects the
runtime type of the new value, via the given type test (`isinstance`). -/
def typeValidator (test : TVal → Bool) : Validator := fun _ newv _ => test newv

/-- `isinstance(x, str)` on topic values. -/
def isStr : TVal → Bool
  | .str _ => true
  | _ => false

/-- `Topic._validate_change_and_get_result` from topic.py.  The change is
applied to a deep copy of the stored value (`copy.deepcopy(self._value)`), so
the stored value is never touched even by the in-place dict operations; hence
only the `Except` part of `applyChg` is consulted here.  An
`InvalidChangeError` raised by `apply` is re-raised with the topic attached;
any other exception propagates unchanged.  When a validator rejects, the
source executes `raise InvalidChangeError(self, change, ...)` — but
`InvalidChangeError.__init__` accepts `(change, reason)` only, so this call
itself raises `TypeError`; the failing branch models exactly that.
The error payload of the first failing validator is not tracked;
`List.all` short-circuits like the source's for-loop. -/
def validateChangeAndGetResult (validators : List Validator) (value : TVal)
    (c : Chg) : Except PyErr (Chg × TVal) :=
  match (applyChg c value).2 with
  | .error e => .error e
  | .ok (c1, newv) =>
      if validators.all (fun f => f value newv c1) then .ok (c1, newv)
      else .error .typeError

/-- `Topic.apply_change` from topic.py: validate and compute the new value,
store it, then notify listeners; if notification raises, restore
`self._value = old_value` and re-raise.  The listener callback is abstracted
into a boolean success predicate over `(change, old_value, new_value)`; its
exception payload is not tracked, any listener failure surfaces as
`listenerError`.  The result's first component is the topic's stored value
after the call; the second is the returned `(old_value, new_value)` pair or
the raised error. -/
def topicApplyChange (validators : List Validator)
    (listener : Chg → TVal → TVal → Bool) (value : TVal) (c : Chg)
    (notify : Bool) : TVal × Except PyErr (TVal × TVal) :=
  match validateChangeAndGetResult validators value c with
  | .error e => (value, .error e)
  | .ok (c1, newv) =>
      if notify then
        if listener c1 value newv then (newv, .ok (value, newv))
        else (value, .error .listenerError)
      else (newv, .ok (value, newv))

/-- C3 (counterexample to the claim as stated): a Set change expecting prior
value `2` applied to a topic whose value is `1` fails hard and leaves the
value untouched, but the failure is a Python `AssertionError` (from the
`assert old_value == self.old_value` statement in `SetChange.apply`), not an
`InvalidChange` rejection as the claim states. -/
theorem c3_claim_counterexample :
    topicApplyChange [] (fun _ _ _ => true) (TVal.int 1)
        (Chg.setw (TVal.int 5) (TVal.int 2)) true
      = (TVal.int 1, Except.error PyErr.assertionError) ∧
    PyErr.assertionError ≠ PyErr.invalidChange := by
  refine ⟨rfl, ?_⟩
  decide

/-- C3 (amended): for every Set change carrying a non-null expected prior
value, applying it through a topic whose actual value differs from that
expectation under Python `==` (`pyEq`: order-insensitive on dicts, int/float
cross-equal) is a hard failure — a Python `AssertionError`, not an
`InvalidChange` — and the topic's value is left unaffected; if the actual
value matches under Python `==`, `apply` returns the new value. -/
theorem c3_set_expectation_amended (validators : List Validator)
    (listener : Chg → TVal → TVal → Bool) (v exp new : TVal)
    (hexp : exp ≠ TVal.pynone) :
    (pyEq v exp = false →
      topicApplyChange validators listener v (Chg.setw new exp) true
        = (v, Except.error PyErr.assertionError)) ∧
    (pyEq v exp = true →
      (applyChg (Chg.setw new exp) v).2 = Except.ok (Chg.setw new v, new)) := by
  constructor
  · intro hne
    have h1 : (applyChg (Chg.setw new exp) v).2
        = Except.error PyErr.assertionError := by
      simp only [applyChg]
      rw [if_pos ⟨hexp, hne⟩]
    simp only [topicApplyChange, validateChangeAndGetResult, h1]
  · intro hmatch
    simp [applyChg, hmatch]

/-- Witness for the amended C3 theorem at the concrete input: topic value `1`,
change `Set(value=5, old_value=2)`. -/
theorem c3_set_expectation_amended_witness :
    (pyEq (TVal.int 1) (TVal.int 2) = false →
      topicApplyChange [] (fun _ _ _ => true) (TVal.int 1)
          (Chg.setw (TVal.int 5) (TVal.int 2)) true
        = (TVal.int 1, Except.error PyErr.assertionError)) ∧
    (pyEq (TVal.int 1) (TVal.int 2) = true →
      (applyChg (Chg.setw (TVal.int 5) (TVal.int 2)) (TVal.int 1)).2
        = Except.ok (Chg.setw (TVal.int 5) (TVal.int 1), TVal.int 5)) :=
  c3_set_expectation_amended [] (fun _ _ _ => true) (TVal.int 1) (TVal.int 2)
    (TVal.int 5) (by decide)

/-- C4 (the code evaluated at the failing input): a string topic holding `""`
with its construction-time base-type validator `type_validator(str)`, given a
Set change whose new value is the integer `42`: the validator fails, and the
code's `raise InvalidChangeError(self, change, ...)` — whose constructor takes
only `(change, reason)` — raises `TypeError` instead of `InvalidChange`.
The stored value is left untouched. -/
theorem c4_validator_failure_raises_type_error :
    topicApplyChange [typeValidator isStr] (fun _ _ _ => true)
        (TVal.str []) (Chg.setw (TVal.int 42) TVal.pynone) true
      = (TVal.str [], Except.error PyErr.typeError) := rfl

/-- C8: for every change that validates successfully against a Topic, if the
listener notification fails then the topic's stored value is rolled back to
its pre-apply value and the listener's error propagates to the submitter. -/
theorem c8_listener_failure_rolls_back (validators : List Validator)
    (listener : Chg → TVal → TVal → Bool) (v : TVal) (c : Chg)
    (c1 : Chg) (newv : TVal)
    (hval : validateChangeAndGetResult validators v c = Except.ok (c1, newv))
    (hfail : listener c1 v newv = false) :
    topicApplyChange validators listener v c true
      = (v, Except.error PyErr.listenerError) := by
  simp only [topicApplyChange, hval]
  simp [hfail]

/-- Witness for the C8 rollback theorem: int topic at `0`, change `Add(1)`,
a listener that always raises. -/
theorem c8_listener_failure_rolls_back_witness :
    topicApplyChange [] (fun _ _ _ => false) (TVal.int 0) (Chg.intAdd 1) true
      = (TVal.int 0, Except.error PyErr.listenerError) :=
  c8_listener_failure_rolls_back [] (fun _ _ _ => false) (TVal.int 0)
    (Chg.intAdd 1) (Chg.intAdd 1) (TVal.int 1) rfl rfl

/-- `DictChangeTypes.ChangeValueChange` with its identity tracked: the
attributes `key`, `value`, `old_value` and `id` that `apply`/`inverse` read
or write.  (`id` in the source is the random uuid string drawn by
`Change.__init__`, or the `uuid.uuid4()` object written by the regeneration
branch; ids are opaque strings here.) -/
structure CVChange where
  key : String
  value : Int
  old_value : Option Int
  id : String
deriving DecidableEq, Repr

/-- `ChangeValueChange.apply(old_dict)` from change.py, with the fresh uuid
the regeneration branch would draw passed in explicitly as `freshId`.
A missing key raises `InvalidChange`; otherwise, when the stored `old_value`
differs from the dict's current value at the key, `self.id` is regenerated to
`freshId` (and the change proceeds); in all cases the current value is
captured into `self.old_value` and the dict entry is overwritten in place.
Returns the post-call change object and dict. -/
def cvApply (c : CVChange) (freshId : String) (d : List (String × Int)) :
    Except PyErr (CVChange × List (String × Int)) :=
  match dictLookup c.key d with
  | Option.none => .error .invalidChange
  | Option.some cur =>
      .ok ({ key := c.key, value := c.value, old_value := Option.some cur,
             id := if c.old_value = Option.some cur then c.id else freshId },
           dictSet c.key c.value d)

/-- `ChangeValueChange.inverse()` from change.py: a new ChangeValueChange on
the same key writing back `self.old_value`, with expectation (`old_value`
field) `self.value`; the fresh uuid `Change.__init__` draws for it is passed
as `invId`.  Before `apply` has run, `self.old_value` may be None; the spec
defines inverse only after apply, so the `getD` default is never exercised
by the theorems. -/
def cvInverse (c : CVChange) (invId : String) : CVChange :=
  { key := c.key, value := c.old_value.getD 0, old_value := Option.some c.value,
    id := invId }

/-- C6: for a dict ChangeValue change applied to a dict containing its key,
the apply proceeds (never rejects on a stale expectation): it captures the
prior value into `old_value`, stores the new value at the key, and keeps its
id exactly when the declared expectation matched the prior value, regenerating
it to a fresh uuid otherwise; the inverse then writes back the captured prior
value with the new value as expectation.  If the key is absent, apply fails
with InvalidChange. -/
theorem c6_change_value_semantics (c : CVChange) (freshId : String)
    (d : List (String × Int)) :
    (∀ cur, dictLookup c.key d = Option.some cur →
      cvApply c freshId d
          = Except.ok ({ key := c.key, value := c.value,
                         old_value := Option.some cur,
                         id := if c.old_value = Option.some cur then c.id
                               else freshId },
                       dictSet c.key c.value d) ∧
      dictLookup c.key (dictSet c.key c.value d) = Option.some c.value ∧
      (∀ invId,
        cvInverse { key := c.key, value := c.value,
                    old_value := Option.some cur,
                    id := if c.old_value = Option.some cur then c.id
                          else freshId } invId
          = { key := c.key, value := cur, old_value := Option.some c.value,
              id := invId })) ∧
    (dictLookup c.key d = Option.none →
      cvApply c freshId d = Except.error PyErr.invalidChange) := by
  refine ⟨fun cur hcur => ⟨?_, ?_, fun invId => ?_⟩, fun hnone => ?_⟩
  · simp [cvApply, hcur]
  · exact dictLookup_set_self c.key c.value cur d hcur
  · simp [cvInverse]
  · simp [cvApply, hnone]

/-- The change-type registries of change.py: for each topic type name in
`type_name_to_change_types`, the keys of that class's `types` dict — the only
`(topic_type, type)` pairs `Change.deserialize` can dispatch to.  Note that
`DictChangeTypes.types` lists only set/add/remove: `change_value` is absent. -/
def typesRegistry : String → Option (List String)
  | "generic" => Option.some ["set"]
  | "string" => Option.some ["set"]
  | "int" => Option.some ["set", "add"]
  | "float" => Option.some ["set", "add"]
  | "set" => Option.some ["set", "append", "remove"]
  | "dict" => Option.some ["set", "add", "remove"]
  | "event" => Option.some ["emit", "reversed_emit"]
  | _ => Option.none

/-- The wire form `{topic_name, topic_type, type, id, <fields>}` of a
serialized change, reduced to the two tags `Change.deserialize` dispatches
on: `change_dict['topic_type']` and `change_dict['type']`. -/
structure Wire where
  topicType : String
  changeType : String
deriving DecidableEq, Repr

/-- The dispatch tags that `ChangeValueChange.serialize()` emits:
`topic_type = "dict"`, `type = "change_value"`. -/
def serializeChangeValueTags : Wire :=
  { topicType := "dict", changeType := "change_value" }

/-- `Change.deserialize`'s dispatch from change.py:
`type_name_to_change_types[topic_type].types[change_type]`; a missing key at
either level is a Python `KeyError`, i.e. deserialization fails. -/
def deserializeDispatchOk (w : Wire) : Bool :=
  match typesRegistry w.topicType with
  | Option.none => false
  | Option.some keys => keys.contains w.changeType

/-- C5 (the code evaluated at the failing input): the wire form produced by
serializing a dict ChangeValue change cannot be deserialized — its type tag
`change_value` is missing from `DictChangeTypes.types`, so
`Change.deserialize` raises `KeyError` on it. -/
theorem c5_change_value_not_deserializable :
    deserializeDispatchOk serializeChangeValueTags = false := by
  decide

/-- The listener events `SetTopic.notify_listeners` can fire:
`on_set(new_value)`, `on_append(item)`, `on_remove(item)`. -/
inductive SetEvent where
  | eset (l : List Int)
  | eappend (i : Int)
  | eremove (i : Int)
deriving DecidableEq, Repr

/-- `SetTopic.notify_listeners(change, old_value, new_value)` from topic.py,
as the ordered list of events fired.  For a whole-value SetChange it fires
`on_set(new_value)` and then diffs the two lists: each distinct old item
absent from the new list fires `on_remove`, each distinct new item absent
from the old list fires `on_append` (the source builds Python sets of
`json.dumps` serializations; set iteration order is unspecified, so this
model fixes first-occurrence order and the theorems state only
order-insensitive facts about these events).  For Append/Remove changes it
fires `on_set(new_value)` then the single granular event.  Any other change
type raises an Exception (modelled `Option.none`). -/
def setTopicNotify (c : Chg) (old newv : List Int) : Option (List SetEvent) :=
  match c with
  | .setw _ _ =>
      Option.some (SetEvent.eset newv ::
        (((old.filter (fun i => decide (i ∉ newv))).dedup.map SetEvent.eremove) ++
         ((newv.filter (fun i => decide (i ∉ old))).dedup.map SetEvent.eappend)))
  | .setAppend i => Option.some [SetEvent.eset newv, SetEvent.eappend i]
  | .setRemove i => Option.some [SetEvent.eset newv, SetEvent.eremove i]
  | _ => Option.none

/-- C9: applying the whole-value Set change `[1,2,3] → [2,3,4]` to a set
topic succeeds, and the notification fires exactly one `remove(1)` event and
exactly one `append(4)` event (besides the whole-value `set` event), and no
other granular events — not per-element replacement events. -/
theorem c9_diff_based_notification :
    (applyChg (Chg.setw (TVal.list [2, 3, 4]) TVal.pynone)
        (TVal.list [1, 2, 3])).2
      = Except.ok (Chg.setw (TVal.list [2, 3, 4]) (TVal.list [1, 2, 3]),
                   TVal.list [2, 3, 4]) ∧
    ∃ evs,
      setTopicNotify (Chg.setw (TVal.list [2, 3, 4]) (TVal.list [1, 2, 3]))
          [1, 2, 3] [2, 3, 4] = Option.some evs ∧
      evs.count (SetEvent.eremove 1) = 1 ∧
      evs.count (SetEvent.eappend 4) = 1 ∧
      ∀ e ∈ evs, e = SetEvent.eset [2, 3, 4] ∨ e = SetEvent.eremove 1 ∨
        e = SetEvent.eappend 4 := by
  constructor
  · rfl
  · refine ⟨[SetEvent.eset [2, 3, 4], SetEvent.eremove 1, SetEvent.eappend 4],
      by decide, by decide, by decide, by decide⟩

/-- C10: for every change a SetTopic supports (whole-value Set, Append,
Remove), `notify_listeners` always fires the `on_set` event carrying the full
new list value, first; the granular `on_append`/`on_remove` events come in
addition to it, never instead of it. -/
theorem c10_set_event_always_fired (old newv : List Int) :
    (∀ value oldv, ∃ granular,
      setTopicNotify (Chg.setw value oldv) old newv
          = Option.some (SetEvent.eset newv :: granular) ∧
      ∀ e ∈ granular,
        (∃ i, e = SetEvent.eremove i) ∨ (∃ i, e = SetEvent.eappend i)) ∧
    (∀ i, setTopicNotify (Chg.setAppend i) old newv
        = Option.some [SetEvent.eset newv, SetEvent.eappend i]) ∧
    (∀ i, setTopicNotify (Chg.setRemove i) old newv
        = Option.some [SetEvent.eset newv, SetEvent.eremove i]) := by
  refine ⟨fun value oldv => ⟨_, rfl, ?_⟩, fun i => rfl, fun i => rfl⟩
  intro e he
  simp only [List.mem_append, List.mem_map] at he
  rcases he with ⟨i, _, rfl⟩ | ⟨i, _, rfl⟩
  · exact Or.inl ⟨i, rfl⟩
  · exact Or.inr ⟨i, rfl⟩

/-- Modelled from the spec: the string Insert/Delete change kinds.
`StringTopic.insert` / `delete`, their Change classes and the StateMachine
are exercised by src/unittest/test_string_diff_undo_redo.py but their code is
not among the sources under src/; spec §4.1 defines them: Insert(pos, text)
splices `text` into the string at `pos` (fails when pos is out of range),
inverse Delete(pos, text); Delete(pos, text) removes the substring `text`
found at `pos` (fails when the substring at `pos` does not equal `text`),
inverse Insert(pos, text).  Strings are lists of characters. -/
inductive StrChg where
  | ins (pos : Nat) (text : List Char)
  | del (pos : Nat) (text : List Char)
deriving DecidableEq, Repr

/-- Modelled from the spec: apply a string Insert/Delete change (spec §4.1
operation table, string rows). -/
def strChgApply : StrChg → List Char → Except PyErr (List Char)
  | .ins pos text, s =>
      if pos ≤ s.length then .ok (s.take pos ++ text ++ s.drop pos)
      else .error .invalidChange
  | .del pos text, s =>
      if pos + text.length ≤ s.length ∧ (s.drop pos).take text.length = text
      then .ok (s.take pos ++ s.drop (pos + text.length))
      else .error .invalidChange

/-- Modelled from the spec: Insert and Delete invert each other (spec §4.1). -/
def strChgInverse : StrChg → StrChg
  | .ins p t => .del p t
  | .del p t => .ins p t

/-- Modelled from the spec (§4.3, §3): the StateMachine state relevant to the
string undo/redo scenario — the single string topic's value plus the list of
recorded Transitions (each the ordered list of changes one recording scope
collected and handed to the transition callback on normal exit). -/
structure MiniSM where
  value : List Char
  transitions : List (List StrChg)
deriving DecidableEq, Repr

/-- Apply a list of changes left to right, stopping at the first failure. -/
def smApplyList (s : List Char) : List StrChg → Except PyErr (List Char)
  | [] => .ok s
  | c :: rest =>
      match strChgApply c s with
      | .error e => .error e
      | .ok s2 => smApplyList s2 rest

/-- Modelled from the spec: one recording scope (`with machine.record():`)
applying the given changes; on success the scope seals them as exactly one
new Transition appended to the history. -/
def smRecord (sm : MiniSM) (cs : List StrChg) : Except PyErr MiniSM :=
  match smApplyList sm.value cs with
  | .error e => .error e
  | .ok v => .ok { value := v, transitions := sm.transitions ++ [cs] }

/-- Modelled from the spec: `undo(transition)` applies the inverse of each of
the transition's changes, in reverse order, through the normal apply path;
it reuses the transition's identity, recording no new Transition. -/
def smUndo (sm : MiniSM) (t : List StrChg) : Except PyErr MiniSM :=
  match smApplyList sm.value (t.reverse.map strChgInverse) with
  | .error e => .error e
  | .ok v => .ok { value := v, transitions := sm.transitions }

/-- Modelled from the spec: `redo(transition)` reapplies the transition's
original changes in original order, recording no new Transition. -/
def smRedo (sm : MiniSM) (t : List StrChg) : Except PyErr MiniSM :=
  match smApplyList sm.value t with
  | .error e => .error e
  | .ok v => .ok { value := v, transitions := sm.transitions }

/-- C2: for a string topic initialized to "a", recording `insert(1, "bcde")`
inside one recording scope makes the value "abcde" and records exactly one
Transition; undoing that Transition restores "a"; redoing it restores
"abcde" (and neither undo nor redo records a further Transition). -/
theorem c2_string_undo_redo :
    smRecord { value := ['a'], transitions := [] }
        [StrChg.ins 1 ['b', 'c', 'd', 'e']]
      = Except.ok { value := ['a', 'b', 'c', 'd', 'e'],
                    transitions := [[StrChg.ins 1 ['b', 'c', 'd', 'e']]] } ∧
    [[StrChg.ins 1 ['b', 'c', 'd', 'e']]].length = 1 ∧
    smUndo { value := ['a', 'b', 'c', 'd', 'e'],
             transitions := [[StrChg.ins 1 ['b', 'c', 'd', 'e']]] }
        [StrChg.ins 1 ['b', 'c', 'd', 'e']]
      = Except.ok { value := ['a'],
                    transitions := [[StrChg.ins 1 ['b', 'c', 'd', 'e']]] } ∧
    smRedo { value := ['a'],
             transitions := [[StrChg.ins 1 ['b', 'c', 'd', 'e']]] }
        [StrChg.ins 1 ['b', 'c', 'd', 'e']]
      = Except.ok { value := ['a', 'b', 'c', 'd', 'e'],
                    transitions := [[StrChg.ins 1 ['b', 'c', 'd', 'e']]] } := by
  refine ⟨?_, rfl, ?_, ?_⟩ <;> rfl
